import Mathlib

/-!
Shallow embedding of `table_ocr/pdf_to_images/__init__.py`.

The module is process-orchestration glue around three external command-line
tools (`pdfimages`, `tesseract`, `mogrify`).  Effects are embedded as explicit
oracle parameters: the outcome of a subprocess invocation (its exit status,
captured stderr, decoded stdout) and the directory listing seen by
`os.listdir` are inputs of the Lean functions, and the functions return the
values the Python code would return together with the exception it would
raise (`Except`) and the log lines it would emit.

Strings are modelled as `List Char`; Python's `str` operations used by the
source (`in`, `split`, `rfind`-based `os.path.split`, `os.path.join`,
`os.path.isabs`, `os.path.abspath`/`normpath`) are translated below from
their CPython (posixpath) definitions.  Python compares strings
lexicographically by code point, which coincides with Lean's `String` order,
used for `sorted`.
-/

namespace TableOcr

/-- Python `pat in s` for strings: some drop of `s` starts with `pat`. -/
def pyContains (pat : List Char) : List Char → Bool
  | [] => pat.isEmpty
  | c :: rest => pat.isPrefixOf (c :: rest) || pyContains pat rest

/-- The part of `s` strictly before the first occurrence of `sep`
(all of `s` when `sep` does not occur).  This is the spec's
"substring of the filename before the first occurrence". -/
def takeUntilSep (sep : List Char) : List Char → List Char
  | [] => []
  | c :: rest =>
    if sep ≠ [] ∧ sep.isPrefixOf (c :: rest) then []
    else c :: takeUntilSep sep rest

/-- The part of `s` strictly after the first occurrence of `sep`, or `none`
when `sep` does not occur.  This is the spec's "substring after the first
separator". -/
def afterFirst (sep : List Char) : List Char → Option (List Char)
  | [] => none
  | c :: rest =>
    if sep ≠ [] ∧ sep.isPrefixOf (c :: rest) then
      some (rest.drop (sep.length - 1))
    else afterFirst sep rest

theorem afterFirst_length_lt (sep : List Char) :
    ∀ s r, afterFirst sep s = some r → r.length < s.length := by
  intro s
  induction s with
  | nil => intro r h; simp [afterFirst] at h
  | cons c rest ih =>
    intro r h
    rw [afterFirst] at h
    by_cases hc : sep ≠ [] ∧ sep.isPrefixOf (c :: rest)
    · rw [if_pos hc] at h
      have hd := List.length_drop (sep.length - 1) rest
      cases h
      simp only [List.length_cons, List.length_drop]
      omega
    · rw [if_neg hc] at h
      have := ih r h
      simp only [List.length_cons]
      omega

/-- `pySplit` with explicit fuel (structural recursion, so that concrete
inputs evaluate inside the kernel).  Each recursive step strictly shortens
the string, so `s.length` fuel always suffices. -/
def pySplitFuel (sep : List Char) : Nat → List Char → List (List Char)
  | 0, s => [takeUntilSep sep s]
  | fuel + 1, s =>
    match afterFirst sep s with
    | none => [takeUntilSep sep s]
    | some r => takeUntilSep sep s :: pySplitFuel sep fuel r

/-- Python `s.split(sep)` for a non-empty separator `sep`: the chunk before
the first occurrence of `sep`, followed by the split of what comes after it
(non-overlapping occurrences, scanned left to right; the last chunk is what
remains once no occurrence is left).  For `sep = []` Python raises
`ValueError`; here `afterFirst` never fires and the result is `[s]`, and no
call site uses an empty separator. -/
def pySplit (sep s : List Char) : List (List Char) :=
  pySplitFuel sep s.length s

theorem pySplitFuel_fuel_irrel (sep : List Char) :
    ∀ fuel₁ fuel₂ s, s.length ≤ fuel₁ → s.length ≤ fuel₂ →
      pySplitFuel sep fuel₁ s = pySplitFuel sep fuel₂ s := by
  intro fuel₁
  induction fuel₁ with
  | zero =>
    intro fuel₂ s h1 h2
    have hs : s = [] := List.length_eq_zero.mp (Nat.le_zero.mp h1)
    subst hs
    cases fuel₂ with
    | zero => rfl
    | succ n => simp [pySplitFuel, afterFirst]
  | succ n ih =>
    intro fuel₂ s h1 h2
    cases fuel₂ with
    | zero =>
      have hs : s = [] := List.length_eq_zero.mp (Nat.le_zero.mp h2)
      subst hs
      simp [pySplitFuel, afterFirst]
    | succ m =>
      rw [pySplitFuel, pySplitFuel]
      cases hr : afterFirst sep s with
      | none => rfl
      | some r =>
        have hlt := afterFirst_length_lt sep s r hr
        simp only [ih m r (by omega) (by omega)]

/-- Unfolding equation for `pySplit`. -/
theorem pySplit_eq (sep s : List Char) :
    pySplit sep s =
      takeUntilSep sep s ::
        (match afterFirst sep s with
         | none => []
         | some r => pySplit sep r) := by
  unfold pySplit
  cases h : afterFirst sep s with
  | none =>
    cases hl : s.length with
    | zero => simp [pySplitFuel]
    | succ n => simp [pySplitFuel, h]
  | some r =>
    have hlt := afterFirst_length_lt sep s r h
    cases hl : s.length with
    | zero => omega
    | succ n =>
      rw [pySplitFuel, h]
      simp only [pySplitFuel_fuel_irrel sep n r.length r (by omega) (by omega)]

theorem pySplit_ne_nil (sep s : List Char) : pySplit sep s ≠ [] := by
  rw [pySplit_eq]
  simp

theorem takeUntilSep_of_not_contains (sep s : List Char)
    (h : pyContains sep s = false) : takeUntilSep sep s = s := by
  induction s with
  | nil => rfl
  | cons c rest ih =>
    rw [pyContains] at h
    simp only [Bool.or_eq_false_iff] at h
    rw [takeUntilSep, if_neg]
    · rw [ih h.2]
    · intro hc
      rw [hc.2] at h
      simp at h

theorem afterFirst_of_not_contains (sep s : List Char)
    (h : pyContains sep s = false) : afterFirst sep s = none := by
  induction s with
  | nil => rfl
  | cons c rest ih =>
    rw [pyContains] at h
    simp only [Bool.or_eq_false_iff] at h
    rw [afterFirst, if_neg]
    · exact ih h.2
    · intro hc
      rw [hc.2] at h
      simp at h

theorem afterFirst_isSome_iff (sep s : List Char) (hsep : sep ≠ []) :
    (afterFirst sep s).isSome = true ↔ pyContains sep s = true := by
  induction s with
  | nil =>
    simp only [afterFirst, pyContains, Option.isSome_none, List.isEmpty_iff]
    simp [hsep]
  | cons c rest ih =>
    rw [afterFirst, pyContains]
    by_cases hc : sep.isPrefixOf (c :: rest)
    · rw [if_pos ⟨hsep, hc⟩]
      simp [hc]
    · rw [if_neg (by simp [hc])]
      simp [hc, ih]

/-- `pyContains` agrees with the declarative "occurs as a factor". -/
theorem pyContains_iff (pat s : List Char) :
    pyContains pat s = true ↔ ∃ a b, s = a ++ pat ++ b := by
  induction s with
  | nil =>
    simp only [pyContains, List.isEmpty_iff]
    constructor
    · intro h
      exact ⟨[], [], by simp [h]⟩
    · rintro ⟨a, b, hab⟩
      rcases List.append_eq_nil.mp (List.append_eq_nil.mp hab.symm).1 with ⟨-, h2⟩
      exact h2
  | cons c rest ih =>
    rw [pyContains]
    simp only [Bool.or_eq_true]
    constructor
    · rintro (h | h)
      · rcases List.isPrefixOf_iff_prefix.mp h with ⟨t, ht⟩
        exact ⟨[], t, by simp [← ht]⟩
      · rcases ih.mp h with ⟨a, b, hab⟩
        exact ⟨c :: a, b, by simp [hab]⟩
    · rintro ⟨a, b, hab⟩
      cases a with
      | nil =>
        left
        exact List.isPrefixOf_iff_prefix.mpr ⟨b, by simpa using hab.symm⟩
      | cons a0 a' =>
        right
        apply ih.mpr
        refine ⟨a', b, ?_⟩
        have h2 := hab
        simp only [List.cons_append, List.cons.injEq] at h2
        exact h2.2

/-- A factor of a factor is a factor: used to get `": " in line` from
`"Rotate: " in line`. -/
theorem pyContains_of_factor (pat1 pat2 s : List Char)
    (hfac : pyContains pat2 pat1 = true) (hs : pyContains pat1 s = true) :
    pyContains pat2 s = true := by
  rcases (pyContains_iff pat2 pat1).mp hfac with ⟨a, b, hab⟩
  rcases (pyContains_iff pat1 s).mp hs with ⟨x, y, hxy⟩
  apply (pyContains_iff pat2 s).mpr
  exact ⟨x ++ a, b ++ y, by simp [hxy, hab]⟩

theorem pySplit_headD (sep s : List Char) :
    (pySplit sep s).headD [] = takeUntilSep sep s := by
  rw [pySplit_eq]
  rfl

theorem pySplit_getElem_one (sep s : List Char) :
    (pySplit sep s)[1]? = (afterFirst sep s).map (takeUntilSep sep) := by
  rw [pySplit_eq]
  cases h : afterFirst sep s with
  | none => simp
  | some r =>
    simp only [Option.map_some]
    rw [show (1 : Nat) = 0 + 1 by rfl]
    rw [List.getElem?_cons_succ, pySplit_eq]
    simp

/-! ## posixpath primitives

Translated from CPython's `posixpath.py`: `isabs`, `split`, `join` (for a
single extra component, the only form the source uses), `normpath`, and
`abspath`.  `os.getcwd()` is an oracle parameter `cwd`. -/

/-- `posixpath.isabs(s)`: the path starts with a slash. -/
def isabs : List Char → Bool
  | [] => false
  | c :: _ => c = '/'

/-- Helper for `posixpath.split`: `some (s[:i], s[i:])` where
`i = s.rfind('/') + 1`, or `none` when `s` has no slash. -/
def splitAtLastSlash : List Char → Option (List Char × List Char)
  | [] => none
  | c :: rest =>
    match splitAtLastSlash rest with
    | some (h, t) => some (c :: h, t)
    | none => if c = '/' then some (['/'], rest) else none

/-- Python `head.rstrip('/')`: drop trailing slashes. -/
def rstripSlash : List Char → List Char
  | [] => []
  | c :: rest =>
    let r := rstripSlash rest
    if r = [] ∧ c = '/' then [] else c :: r

/-- `posixpath.split(p)`: split at the last slash; the head keeps its
trailing slashes only when it consists of slashes alone. -/
def pathSplit (p : List Char) : List Char × List Char :=
  match splitAtLastSlash p with
  | none => ([], p)
  | some (h, t) => (if h.all (fun c => c = '/') then h else rstripSlash h, t)

/-- `posixpath.join(a, b)` for one extra component `b`. -/
def pathJoin (a b : List Char) : List Char :=
  if isabs b then b
  else if a = [] ∨ a.getLast? = some '/' then a ++ b
  else a ++ '/' :: b

/-- Number of leading slashes `posixpath.normpath` preserves: two when the
path starts with exactly two slashes (POSIX special case), one when
absolute, zero otherwise. -/
def initialSlashCount (p : List Char) : Nat :=
  if isabs p then
    if p.take 2 = ['/', '/'] ∧ p.take 3 ≠ ['/', '/', '/'] then 2 else 1
  else 0

/-- One step of `normpath`'s component loop: skip empty and `.` components,
append a component unless it is a `..` that cancels a previous real
component. -/
def npStep (ini : Nat) (acc : List (List Char)) (comp : List Char) :
    List (List Char) :=
  if comp = [] ∨ comp = ['.'] then acc
  else if comp ≠ ['.', '.'] ∨ (ini = 0 ∧ acc = []) ∨
      (acc ≠ [] ∧ acc.getLast? = some ['.', '.']) then
    acc ++ [comp]
  else if acc ≠ [] then acc.dropLast else acc

/-- `posixpath.normpath(p)`. -/
def normpath (p : List Char) : List Char :=
  if p = [] then ['.']
  else
    let ini := initialSlashCount p
    let comps := (pySplit ['/'] p).foldl (npStep ini) []
    let out := List.replicate ini '/' ++ (comps.intersperse ['/']).flatten
    if out = [] then ['.'] else out

/-- `posixpath.abspath(p)` with the current working directory passed
explicitly. -/
def abspath (cwd p : List Char) : List Char :=
  normpath (if isabs p then p else pathJoin cwd p)

theorem isabs_pathJoin (a b : List Char) (h : isabs a = true) :
    isabs (pathJoin a b) = true := by
  have ha : ∃ t, a = '/' :: t := by
    cases a with
    | nil => simp [isabs] at h
    | cons c t => exact ⟨t, by simpa [isabs] using h⟩
  obtain ⟨t, rfl⟩ := ha
  unfold pathJoin
  by_cases hb : isabs b = true
  · rw [if_pos hb]
    exact hb
  · rw [if_neg hb]
    by_cases hmid : ('/' :: t : List Char) = [] ∨ ('/' :: t : List Char).getLast? = some '/'
    · rw [if_pos hmid]
      simp [isabs]
    · rw [if_neg hmid]
      simp [isabs]

theorem isabs_normpath (p : List Char) (h : isabs p = true) :
    isabs (normpath p) = true := by
  have hp : p ≠ [] := by
    intro hnil
    rw [hnil] at h
    simp [isabs] at h
  have hini : 1 ≤ initialSlashCount p := by
    unfold initialSlashCount
    rw [if_pos h]
    split <;> omega
  obtain ⟨k, hk⟩ : ∃ k, initialSlashCount p = k + 1 :=
    ⟨initialSlashCount p - 1, by omega⟩
  unfold normpath
  rw [if_neg hp]
  simp only [hk, List.replicate_succ]
  rw [if_neg (by simp)]
  simp [isabs]

theorem isabs_abspath (cwd p : List Char) (h : isabs cwd = true) :
    isabs (abspath cwd p) = true := by
  unfold abspath
  by_cases hp : isabs p = true
  · rw [if_pos hp]
    exact isabs_normpath p hp
  · rw [if_neg hp]
    exact isabs_normpath _ (isabs_pathJoin cwd p h)

theorem splitAtLastSlash_of_cons (c : Char) (rest : List Char) (h t : List Char)
    (heq : splitAtLastSlash (c :: rest) = some (h, t)) : ∃ h2, h = c :: h2 := by
  rw [splitAtLastSlash] at heq
  cases hrec : splitAtLastSlash rest with
  | some pr =>
    rw [hrec] at heq
    cases pr with
    | mk h0 t0 =>
      simp at heq
      exact ⟨h0, heq.1.symm⟩
  | none =>
    rw [hrec] at heq
    by_cases hc : c = '/'
    · rw [if_pos hc] at heq
      simp at heq
      exact ⟨[], by simp [heq.1.symm, hc]⟩
    · rw [if_neg hc] at heq
      simp at heq

theorem splitAtLastSlash_isSome_of_slash (rest : List Char) :
    (splitAtLastSlash ('/' :: rest)).isSome = true := by
  rw [splitAtLastSlash]
  cases hrec : splitAtLastSlash rest with
  | some pr => cases pr with | mk h0 t0 => simp
  | none => simp

theorem rstripSlash_ne_nil (l : List Char) (h : ∃ x ∈ l, x ≠ '/') :
    rstripSlash l ≠ [] := by
  induction l with
  | nil => simp at h
  | cons c rest ih =>
    rw [rstripSlash]
    by_cases hc : c = '/'
    · have hrest : ∃ x ∈ rest, x ≠ '/' := by
        rcases h with ⟨x, hx, hxne⟩
        rcases List.mem_cons.mp hx with rfl | hmem
        · exact absurd hc hxne
        · exact ⟨x, hmem, hxne⟩
      have := ih hrest
      rw [if_neg (by simp [this])]
      simp
    · rw [if_neg (by simp [hc])]
      simp

theorem isabs_rstripSlash (t : List Char) (hne : ∃ x ∈ t, x ≠ '/') :
    rstripSlash ('/' :: t) = '/' :: rstripSlash t := by
  rw [rstripSlash]
  rw [if_neg (by simp [rstripSlash_ne_nil t hne])]

theorem isabs_pathSplit_fst (p : List Char) (h : isabs p = true) :
    isabs (pathSplit p).1 = true := by
  have hp : ∃ rest, p = '/' :: rest := by
    cases p with
    | nil => simp [isabs] at h
    | cons c t => exact ⟨t, by simpa [isabs] using h⟩
  obtain ⟨rest, rfl⟩ := hp
  unfold pathSplit
  cases hsp : splitAtLastSlash ('/' :: rest) with
  | none =>
    have := splitAtLastSlash_isSome_of_slash rest
    rw [hsp] at this
    simp at this
  | some pr =>
    cases pr with
    | mk hd tl =>
      obtain ⟨h2, rfl⟩ := splitAtLastSlash_of_cons '/' rest hd tl hsp
      dsimp only
      by_cases hall : (('/' :: h2 : List Char)).all (fun c => c = '/') = true
      · simp only [hall, if_pos]
        simp [isabs]
      · rw [if_neg (by simp [hall])]
        have hne : ∃ x ∈ h2, x ≠ '/' := by
          rcases List.all_eq_false.mp (Bool.not_eq_true _ ▸ hall) with ⟨x, hx, hxne⟩
          rcases List.mem_cons.mp hx with rfl | hmem
          · simp at hxne
          · exact ⟨x, hmem, by simpa using hxne⟩
        rw [isabs_rstripSlash h2 hne]
        simp [isabs]

/-! ## Python string comparison

Python compares `str` values lexicographically by code point; `sorted` uses
this order.  `pyStrLt`/`pyStrLe` implement it on `List Char` via
`Char.toNat`. -/

def pyStrLt : List Char → List Char → Bool
  | _, [] => false
  | [], _ :: _ => true
  | a :: as, b :: bs =>
    if a.toNat < b.toNat then true
    else if b.toNat < a.toNat then false
    else pyStrLt as bs

def pyStrLe (a b : List Char) : Bool := ! pyStrLt b a

/-- `pyStrLe` as a relation, for `List.insertionSort` and `List.Pairwise`. -/
abbrev pyStrLeRel (a b : List Char) : Prop := pyStrLe a b = true

instance pyStrLeRel.decRel : DecidableRel pyStrLeRel :=
  fun a b => Bool.decEq (pyStrLe a b) true

theorem pyStrLt_asymm : ∀ a b, pyStrLt a b = true → pyStrLt b a = false := by
  intro a
  induction a with
  | nil => intro b h; cases b <;> simp [pyStrLt]
  | cons x as ih =>
    intro b h
    cases b with
    | nil => simp [pyStrLt] at h
    | cons y bs =>
      rw [pyStrLt] at h ⊢
      by_cases hxy : x.toNat < y.toNat
      · rw [if_neg (by omega), if_pos hxy]
      · rw [if_neg hxy] at h
        by_cases hyx : y.toNat < x.toNat
        · rw [if_pos hyx] at h
          exact absurd h (by simp)
        · rw [if_neg hyx] at h
          rw [if_neg hyx, if_neg hxy]
          exact ih bs h

theorem pyStrLt_trans : ∀ a b c, pyStrLt a b = true → pyStrLt b c = true →
    pyStrLt a c = true := by
  intro a
  induction a with
  | nil =>
    intro b c hab hbc
    cases c with
    | nil => cases b <;> simp [pyStrLt] at hab hbc
    | cons z cs => simp [pyStrLt]
  | cons x as ih =>
    intro b c hab hbc
    cases b with
    | nil => simp [pyStrLt] at hab
    | cons y bs =>
      cases c with
      | nil => simp [pyStrLt] at hbc
      | cons z cs =>
        rw [pyStrLt] at hab hbc ⊢
        by_cases hxy : x.toNat < y.toNat
        · by_cases hyz : y.toNat < z.toNat
          · rw [if_pos (by omega)]
          · rw [if_neg hyz] at hbc
            by_cases hzy : z.toNat < y.toNat
            · rw [if_pos hzy] at hbc
              exact absurd hbc (by simp)
            · rw [if_pos (by omega)]
        · rw [if_neg hxy] at hab
          by_cases hyx : y.toNat < x.toNat
          · rw [if_pos hyx] at hab
            exact absurd hab (by simp)
          · rw [if_neg hyx] at hab
            by_cases hyz : y.toNat < z.toNat
            · rw [if_pos (by omega)]
            · rw [if_neg hyz] at hbc
              by_cases hzy : z.toNat < y.toNat
              · rw [if_pos hzy] at hbc
                exact absurd hbc (by simp)
              · rw [if_neg hzy] at hbc
                rw [if_neg (by omega), if_neg (by omega)]
                exact ih bs cs hab hbc

theorem pyStrLt_eq_of_not (a : List Char) : ∀ b, pyStrLt a b = false →
    pyStrLt b a = false → a = b := by
  induction a with
  | nil => intro b h1 h2; cases b <;> simp_all [pyStrLt]
  | cons x as ih =>
    intro b h1 h2
    cases b with
    | nil => simp [pyStrLt] at h2
    | cons y bs =>
      rw [pyStrLt] at h1 h2
      by_cases hxy : x.toNat < y.toNat
      · rw [if_pos hxy] at h1
        exact absurd h1 (by simp)
      · by_cases hyx : y.toNat < x.toNat
        · rw [if_pos hyx] at h2
          exact absurd h2 (by simp)
        · rw [if_neg hxy, if_neg hyx] at h1
          rw [if_neg hyx, if_neg hxy] at h2
          have hchar : x = y := by
            have hn : x.toNat = y.toNat := by omega
            exact StrictMono.injective (f := Char.toNat) (fun _ _ h => h) hn
          rw [hchar, ih bs h1 h2]

instance pyStrLeRel.isTotal : IsTotal (List Char) pyStrLeRel := by
  constructor
  intro a b
  by_cases h : pyStrLt b a = true
  · right
    simp only [pyStrLeRel, pyStrLe, pyStrLt_asymm b a h, Bool.not_false]
  · left
    simp only [pyStrLeRel, pyStrLe, Bool.not_eq_true] at h ⊢
    simp [h]

instance pyStrLeRel.isTrans : IsTrans (List Char) pyStrLeRel := by
  constructor
  intro a b c hab hbc
  simp only [pyStrLeRel, pyStrLe, Bool.not_eq_true'] at hab hbc ⊢
  by_cases hca : pyStrLt c a = true
  · by_cases hbcT : pyStrLt b c = true
    · have := pyStrLt_trans b c a hbcT hca
      rw [this] at hab
      exact absurd hab (by simp)
    · have hbceq : b = c := pyStrLt_eq_of_not b c (by simpa using hbcT) hbc
      rw [hbceq] at hab
      rw [hca] at hab
      exact absurd hab (by simp)
  · simpa using hca

/-! ## `find_matching_files_in_dir`

The source filters `os.listdir(directory)` by
`re.match(r"{}-\d{{3}}.*\.png".format(re.escape(file_prefix)), filename)`.
`re.match` anchors at the start of the string only; `re.escape` makes the
stem a literal; `\d{3}` is exactly three digits; `.` matches any character
except a newline.  (Python's `\d` also matches non-ASCII Unicode decimal
digits; the embedding uses ASCII digits, which is what the rasterizer
produces.)  The directory listing is an oracle parameter. -/

def dotPng : List Char := ['.', 'p', 'n', 'g']

def pdfExt : List Char := ['.', 'p', 'd', 'f']

/-- Matcher for the regex tail `.*\.png` (no end anchor): some split of the
input is `mid ++ ".png" ++ rest` with no newline in `mid`. -/
def containsDotPngSegment : List Char → Bool
  | [] => false
  | c :: rest =>
    if dotPng.isPrefixOf (c :: rest) then true
    else if c = '\n' then false
    else containsDotPngSegment rest

/-- `re.match(escape(stem) + "-\d{3}.*\.png", name)` viewed as a Boolean:
the name starts with `stem ++ "-"`, followed by three digits, after which
`.*\.png` matches somewhere (no end anchor in the source pattern). -/
def rasterMatch (stem name : List Char) : Bool :=
  (stem ++ ['-']).isPrefixOf name &&
    match name.drop (stem.length + 1) with
    | d1 :: d2 :: d3 :: tail =>
      d1.isDigit && d2.isDigit && d3.isDigit && containsDotPngSegment tail
    | _ => false

/-- `find_matching_files_in_dir(file_prefix, directory)` with the
`os.listdir` result passed explicitly. -/
def find_matching_files_in_dir (fileStem : List Char)
    (listing : List (List Char)) : List (List Char) :=
  listing.filter (fun filename => rasterMatch fileStem filename)

/-! ## Exceptions and subprocess outcomes -/

/-- The Python exceptions the embedded code can raise or observe. -/
inductive PyExc where
  | stopIteration
  | indexError
  | calledProcessError (returncode : Int)
  deriving DecidableEq, Repr

/-- Outcome of the rasterizer `subprocess.run` invocation, as an oracle:
clean exit, non-zero exit (`CalledProcessError` carrying the captured
stderr, decoded as text), missing binary (`FileNotFoundError`), or any
other exception. -/
inductive RasterOutcome where
  | ok
  | nonZeroExit (returncode : Int) (stderr : String)
  | binaryMissing (oserror : String)
  | otherExc (excText : String)
  deriving DecidableEq, Repr

/-- A raised `RuntimeError`: its message and its chained cause
(`raise RuntimeError(...) from e`). -/
structure PyError where
  message : String
  cause : Option RasterOutcome
  deriving DecidableEq, Repr

/-- Oracle environment for `pdfimages`/`pdf_to_images`: the process working
directory (`os.getcwd()`), the subprocess outcome, and the directory
listing seen by `os.listdir(output_dir)` after the invocation. -/
structure RasterEnv where
  cwd : List Char
  outcome : RasterOutcome
  listing : List (List Char)

/-- Python's `repr` of a list of strings, as used by
`str(CalledProcessError)` to print the command (for arguments without
quotes or escapes). -/
def pyListRepr (xs : List String) : String :=
  "[" ++ String.intercalate ", " (xs.map (fun x => "'" ++ x ++ "'")) ++ "]"

/-- `str(e)` for `e : CalledProcessError` (CPython `subprocess.py`).  For a
negative return code CPython prints the signal name when it knows it; the
embedding uses the unknown-signal form (no claim exercises this branch). -/
def cpeStr (cmd : List String) (returncode : Int) : String :=
  let cmdS := pyListRepr cmd
  if returncode < 0 then
    "Command '" ++ cmdS ++ "' died with unknown signal " ++ toString (-returncode) ++ "."
  else
    "Command '" ++ cmdS ++ "' returned non-zero exit status " ++ toString returncode ++ "."

/-! ## `pdfimages` -/

/-- Everything observable about one `pdfimages(...)` call: the command line
it builds, the (absolute) directory it switches into via `working_dir`, the
returned value or raised `RuntimeError`, and the log lines it emits.
`working_dir` itself lives in `table_ocr.util` (not part of this source
file); per the spec it is a scoped change of the process working directory
with guaranteed restoration, and has no further observable effect here
because the subprocess result is an oracle. -/
structure PdfimagesResult where
  cmd : List String
  workdir : List Char
  result : Except PyError (List (List Char))
  logs : List String
  deriving Repr

/-- The stem computation `filename.split(".pdf")[0]` from `pdfimages`. -/
def filename_sans_ext (filename : List Char) : List Char :=
  (pySplit pdfExt filename).headD []

/-- `pdfimages(pdf_filepath, output_dir=None)`. -/
def pdfimages (env : RasterEnv) (pdf_filepath : List Char)
    (output_dir : Option (List Char)) : PdfimagesResult :=
  let directory := (pathSplit pdf_filepath).1
  let filename := (pathSplit pdf_filepath).2
  let od0 := output_dir.getD directory
  let od := if isabs od0 then od0 else abspath env.cwd od0
  let stem := filename_sans_ext filename
  let pdfS := String.mk pdf_filepath
  let cmd : List String := ["pdfimages", "-png", pdfS, String.mk stem]
  match env.outcome with
  | .ok =>
    let image_filenames := find_matching_files_in_dir stem env.listing
    let joined := String.intercalate "\n" (image_filenames.map String.mk)
    { cmd := cmd, workdir := od,
      result := .ok image_filenames,
      logs := ["Converted " ++ pdfS ++ " into files:\n" ++ joined] }
  | .nonZeroExit rc stderr =>
    let msg := "Error running pdfimages on " ++ pdfS ++ ": " ++ cpeStr cmd rc
    { cmd := cmd, workdir := od,
      result := .error ⟨msg, some (.nonZeroExit rc stderr)⟩,
      logs := [msg] ++ (if stderr ≠ "" then ["pdfimages stderr: " ++ stderr] else []) }
  | .binaryMissing oserror =>
    let msg := "pdfimages command not found. Make sure Poppler is installed: " ++ oserror
    { cmd := cmd, workdir := od,
      result := .error ⟨msg, some (.binaryMissing oserror)⟩,
      logs := [msg] }
  | .otherExc excText =>
    let msg := "Unexpected error processing PDF " ++ pdfS ++ ": " ++ excText
    { cmd := cmd, workdir := od,
      result := .error ⟨msg, some (.otherExc excText)⟩,
      logs := [msg] }

/-- `pdf_to_images(pdf_filepath, output_dir=None)`: resolve the PDF path,
derive the target directory, invoke `pdfimages`, and return the joined
paths sorted (Python `sorted`, a stable sort under the code-point
lexicographic order `pyStrLeRel`). -/
def pdf_to_images (env : RasterEnv) (pdf_filepath : List Char)
    (output_dir : Option (List Char)) : Except PyError (List (List Char)) :=
  let pdf := if isabs pdf_filepath then pdf_filepath else abspath env.cwd pdf_filepath
  let directory := (pathSplit pdf).1
  let target_dir := output_dir.getD directory
  match (pdfimages env pdf (some target_dir)).result with
  | .error e => .error e
  | .ok image_filenames =>
    .ok (List.insertionSort pyStrLeRel (image_filenames.map (pathJoin target_dir)))

/-! ## `preprocess_img`, `get_rotate`, `mogrify` -/

def rotateMarker : List Char := ['R', 'o', 't', 'a', 't', 'e', ':', ' ']

def colonSpace : List Char := [':', ' ']

def newlineSep : List Char := ['\n']

/-- The command `get_rotate` builds for the OCR tool. -/
def get_rotate_cmd (tess_params : List String) (image_filepath : String) :
    List String :=
  ["tesseract"] ++ tess_params ++ [image_filepath, "-"]

/-- `get_rotate`'s parsing of the OCR tool's decoded stdout: split on
newlines, take the first line containing `"Rotate: "` (`next` over a
generator raises `StopIteration` when no line matches), then take element 1
of the line split on `": "` (an out-of-range index would raise
`IndexError`). -/
def get_rotate (stdout : List Char) : Except PyExc (List Char) :=
  let lines := pySplit newlineSep stdout
  match lines.find? (fun l => pyContains rotateMarker l) with
  | none => .error .stopIteration
  | some l =>
    match (pySplit colonSpace l)[1]? with
    | none => .error .indexError
    | some v => .ok v

/-- `subprocess.run(cmd)` / `subprocess.run(cmd, check=True)` restricted to
what the rotation path observes: with `check=True` a non-zero return code
raises `CalledProcessError`, without it the completed process is returned
whatever the exit status. -/
def subprocessRun (check : Bool) (returncode : Int) : Except PyExc Int :=
  if check ∧ returncode ≠ 0 then .error (.calledProcessError returncode)
  else .ok returncode

/-- The command `mogrify` builds for the rotation tool. -/
def mogrify_cmd (image_filepath rotate : String) : List String :=
  ["mogrify", "-rotate", rotate, image_filepath]

/-- `mogrify(image_filepath, rotate)`: `subprocess.run` without `check`,
so the tool's return code (the oracle argument) is never inspected. -/
def mogrify (returncode : Int) (image_filepath rotate : String) :
    Except PyExc Int :=
  subprocessRun false returncode

def default_tess_params : List String := ["--psm", "0", "--oem", "0"]

/-- `preprocess_img(filepath, tess_params=None)`: detect the rotation from
the OCR tool's stdout (an oracle), then apply it with `mogrify` (whose exit
code is another oracle). -/
def preprocess_img (tessStdout : List Char) (mogrifyRc : Int)
    (filepath : String) (tess_params : Option (List String)) :
    Except PyExc Unit :=
  let _params := tess_params.getD default_tess_params
  match get_rotate tessStdout with
  | .error e => .error e
  | .ok rotate =>
    match mogrify mogrifyRc filepath (String.mk rotate) with
    | .error e => .error e
    | .ok _ => .ok ()

/-! ## Shape of a successful `pdf_to_images` call -/

/-- A successful `pdf_to_images` call happens exactly when the rasterizer
exits cleanly, and returns the matching listing entries joined onto the
raw (unresolved) target directory, sorted. -/
theorem pdf_to_images_ok_shape (cwd pdf : List Char) (listing : List (List Char))
    (o : RasterOutcome) (od : Option (List Char)) (l : List (List Char))
    (h : pdf_to_images ⟨cwd, o, listing⟩ pdf od = .ok l) :
    o = .ok ∧
      l = List.insertionSort pyStrLeRel
        ((find_matching_files_in_dir
            (filename_sans_ext (pathSplit (if isabs pdf then pdf
              else abspath cwd pdf)).2) listing).map
          (pathJoin (od.getD (pathSplit (if isabs pdf then pdf
            else abspath cwd pdf)).1))) := by
  cases o with
  | ok =>
    refine ⟨rfl, ?_⟩
    simp only [pdf_to_images, pdfimages] at h
    exact (Except.ok.inj h).symm
  | nonZeroExit rc stderr => simp [pdf_to_images, pdfimages] at h
  | binaryMissing oserror => simp [pdf_to_images, pdfimages] at h
  | otherExc excText => simp [pdf_to_images, pdfimages] at h

/-! ## Claims -/

/-- C1 counterexample.  The claim says every returned path is absolute even
when the `output_dir` override is relative.  With override `"out"` and PDF
`/a/b.pdf`, the call succeeds and returns `["out/b-000.png"]`, whose only
element is not absolute: `pdf_to_images` joins the returned filenames onto
the unresolved override (only `pdfimages` resolves its own local copy). -/
theorem pdf_to_images_relative_override_not_abs :
    pdf_to_images ⟨"/w".data, .ok, ["b-000.png".data]⟩ "/a/b.pdf".data
        (some "out".data) = .ok ["out/b-000.png".data] ∧
      isabs "out/b-000.png".data = false := by
  constructor
  · rfl
  · rfl

/-- C1 (amended): for every successful `pdf_to_images` call whose
`output_dir` override is absent or absolute (and with an absolute process
working directory, as `os.getcwd()` guarantees), every returned path is
absolute.  With a relative override the returned paths are joined onto the
override as given; the resolution to absolute happens only inside
`pdfimages` for the working directory, not for the returned paths. -/
theorem pdf_to_images_paths_absolute (cwd pdf : List Char)
    (listing : List (List Char)) (o : RasterOutcome) (od : Option (List Char))
    (l : List (List Char)) (hcwd : isabs cwd = true)
    (hod : od = none ∨ ∃ d, od = some d ∧ isabs d = true)
    (h : pdf_to_images ⟨cwd, o, listing⟩ pdf od = .ok l) :
    ∀ q ∈ l, isabs q = true := by
  obtain ⟨-, rfl⟩ := pdf_to_images_ok_shape cwd pdf listing o od l h
  intro q hq
  have hq2 := (List.Perm.mem_iff (List.perm_insertionSort pyStrLeRel _)).mp hq
  rcases List.mem_map.mp hq2 with ⟨f, -, rfl⟩
  apply isabs_pathJoin
  rcases hod with rfl | ⟨d, rfl, hd⟩
  · simp only [Option.getD_none]
    apply isabs_pathSplit_fst
    by_cases hp : isabs pdf = true
    · rw [if_pos hp]
      exact hp
    · rw [if_neg hp]
      exact isabs_abspath cwd pdf hcwd
  · simpa using hd

/-- C1 witness: concrete instance with no override; the single returned
path is absolute. -/
theorem pdf_to_images_paths_absolute_witness :
    isabs "/a/b-000.png".data = true :=
  pdf_to_images_paths_absolute "/w".data "/a/b.pdf".data ["b-000.png".data]
    .ok none ["/a/b-000.png".data] (by rfl) (Or.inl rfl) (by rfl)
    "/a/b-000.png".data (by simp)

/-- C2: a successful `pdf_to_images` call returns a list sorted in the
code-point lexicographic order on full path strings, and two calls with the
same arguments, working directory and directory listing return exactly the
same list (the subprocess outcomes may even differ, as long as both calls
succeed). -/
theorem pdf_to_images_sorted_deterministic (cwd pdf : List Char)
    (listing : List (List Char)) (o₁ o₂ : RasterOutcome)
    (od : Option (List Char)) (l₁ l₂ : List (List Char))
    (h₁ : pdf_to_images ⟨cwd, o₁, listing⟩ pdf od = .ok l₁)
    (h₂ : pdf_to_images ⟨cwd, o₂, listing⟩ pdf od = .ok l₂) :
    List.Sorted pyStrLeRel l₁ ∧ l₁ = l₂ := by
  obtain ⟨-, hl₁⟩ := pdf_to_images_ok_shape cwd pdf listing o₁ od l₁ h₁
  obtain ⟨-, hl₂⟩ := pdf_to_images_ok_shape cwd pdf listing o₂ od l₂ h₂
  subst hl₁
  subst hl₂
  exact ⟨List.sorted_insertionSort pyStrLeRel _, rfl⟩

/-- C2 witness: concrete instance (the listing is deliberately unsorted). -/
theorem pdf_to_images_sorted_deterministic_witness :
    List.Sorted pyStrLeRel ["/a/b-000.png".data, "/a/b-001.png".data] ∧
      (["/a/b-000.png".data, "/a/b-001.png".data] : List (List Char)) =
        ["/a/b-000.png".data, "/a/b-001.png".data] :=
  pdf_to_images_sorted_deterministic "/w".data "/a/b.pdf".data
    ["b-001.png".data, "b-000.png".data] .ok .ok none
    ["/a/b-000.png".data, "/a/b-001.png".data]
    ["/a/b-000.png".data, "/a/b-001.png".data] (by rfl) (by rfl)

/-- C7: the stem `pdfimages` derives from the filename
(`filename.split(".pdf")[0]`) is exactly the substring before the first
occurrence of `".pdf"` (the whole name when `".pdf"` does not occur);
`invoice.pdf` yields `invoice` and `a.pdf.pdf` yields `a`. -/
theorem filename_sans_ext_first_pdf_occurrence :
    (∀ filename : List Char,
        filename_sans_ext filename = takeUntilSep pdfExt filename) ∧
      filename_sans_ext "invoice.pdf".data = "invoice".data ∧
      filename_sans_ext "a.pdf.pdf".data = "a".data := by
  refine ⟨fun filename => ?_, by rfl, by rfl⟩
  unfold filename_sans_ext
  exact pySplit_headD pdfExt filename

/-- C3 counterexample.  The claim says the raised failure's message embeds
the captured stderr.  With exit code 1 and stderr `"boom!"`, the raised
`RuntimeError`'s message is the `f"Error running pdfimages on {path}: {e}"`
text, where `str(e)` for a `CalledProcessError` prints the command and exit
status only — `"boom!"` does not occur in it (the stderr goes to the error
log instead). -/
theorem pdfimages_stderr_not_in_message :
    (pdfimages ⟨"/w".data, .nonZeroExit 1 "boom!", []⟩ "/a/b.pdf".data
        (some "/out".data)).result =
      .error ⟨"Error running pdfimages on /a/b.pdf: Command '['pdfimages', '-png', '/a/b.pdf', 'b']' returned non-zero exit status 1.",
        some (.nonZeroExit 1 "boom!")⟩ ∧
      pyContains "boom!".data
        "Error running pdfimages on /a/b.pdf: Command '['pdfimages', '-png', '/a/b.pdf', 'b']' returned non-zero exit status 1.".data
        = false :=
  ⟨by rfl, by decide⟩

/-- C3 (amended): a non-zero rasterizer exit raises a wrapped runtime
failure chaining the `CalledProcessError`; its message embeds the PDF path
and the `str(e)` text (command and exit status), while the captured stderr,
when non-empty, is emitted to the error log rather than embedded in the
message. -/
theorem pdfimages_nonzero_exit_wraps (cwd pdf : List Char)
    (listing : List (List Char)) (od : Option (List Char)) (rc : Int)
    (stderr : String) (hstderr : stderr ≠ "") :
    ∃ e, (pdfimages ⟨cwd, .nonZeroExit rc stderr, listing⟩ pdf od).result =
        .error e ∧
      e.cause = some (.nonZeroExit rc stderr) ∧
      e.message = "Error running pdfimages on " ++ String.mk pdf ++ ": " ++
        cpeStr (pdfimages ⟨cwd, .nonZeroExit rc stderr, listing⟩ pdf od).cmd rc ∧
      ("pdfimages stderr: " ++ stderr) ∈
        (pdfimages ⟨cwd, .nonZeroExit rc stderr, listing⟩ pdf od).logs ∧
      pyContains pdf e.message.data = true := by
  refine ⟨_, rfl, rfl, rfl, ?_, ?_⟩
  · simp only [pdfimages]
    rw [if_pos hstderr]
    simp
  · apply (pyContains_iff pdf _).mpr
    refine ⟨"Error running pdfimages on ".data,
      (": " ++ cpeStr (pdfimages ⟨cwd, .nonZeroExit rc stderr, listing⟩ pdf od).cmd rc).data, ?_⟩
    simp only [pdfimages]
    simp [String.data_append]

/-- C3 witness: concrete instance of the amended theorem. -/
theorem pdfimages_nonzero_exit_wraps_witness :
    ∃ e, (pdfimages ⟨"/w".data, .nonZeroExit 1 "boom!", []⟩ "/a/b.pdf".data
        (some "/out".data)).result = .error e ∧
      e.cause = some (.nonZeroExit 1 "boom!") ∧
      e.message = "Error running pdfimages on " ++ String.mk "/a/b.pdf".data ++ ": " ++
        cpeStr (pdfimages ⟨"/w".data, .nonZeroExit 1 "boom!", []⟩ "/a/b.pdf".data
          (some "/out".data)).cmd 1 ∧
      ("pdfimages stderr: " ++ "boom!") ∈
        (pdfimages ⟨"/w".data, .nonZeroExit 1 "boom!", []⟩ "/a/b.pdf".data
          (some "/out".data)).logs ∧
      pyContains "/a/b.pdf".data e.message.data = true :=
  pdfimages_nonzero_exit_wraps "/w".data "/a/b.pdf".data [] (some "/out".data)
    1 "boom!" (by decide)

/-- C5: `get_rotate` fails if and only if no line of the tool's output
contains `"Rotate: "`, and the only failure it can produce is the
`StopIteration` from the exhausted generator (the subsequent index `[1]`
never fails, because the found line contains `": "`); the failure is not
caught or translated inside `get_rotate`. -/
theorem get_rotate_error_iff_no_rotate_line (stdout : List Char) :
    (get_rotate stdout = .error .stopIteration ↔
      ∀ l ∈ pySplit newlineSep stdout, pyContains rotateMarker l = false) ∧
      (∀ e, get_rotate stdout = .error e → e = .stopIteration) := by
  unfold get_rotate
  cases hf : (pySplit newlineSep stdout).find? (fun l => pyContains rotateMarker l) with
  | none =>
    simp only [hf]
    constructor
    · constructor
      · intro _ l hl
        have := List.find?_eq_none.mp hf l hl
        simpa using this
      · intro _
        trivial
    · intro e he
      exact (Except.error.inj he).symm
  | some l =>
    have hcon : pyContains rotateMarker l = true := List.find?_some hf
    have hmem : l ∈ pySplit newlineSep stdout := List.mem_of_find?_eq_some hf
    have hcolon : pyContains colonSpace l = true :=
      pyContains_of_factor rotateMarker colonSpace l (by decide) hcon
    have hsome : (afterFirst colonSpace l).isSome = true :=
      (afterFirst_isSome_iff colonSpace l (by decide)).mpr hcolon
    obtain ⟨r, hr⟩ := Option.isSome_iff_exists.mp hsome
    have h1 : (pySplit colonSpace l)[1]? = some (takeUntilSep colonSpace r) := by
      rw [pySplit_getElem_one, hr]
      rfl
    simp only [hf, h1]
    constructor
    · constructor
      · intro h
        simp at h
      · intro hall
        have := hall l hmem
        rw [hcon] at this
        exact absurd this (by simp)
    · intro e he
      simp at he

/-- C5 witness: output with no "Rotate:" line fails with `StopIteration`. -/
theorem get_rotate_error_iff_no_rotate_line_witness :
    get_rotate "Orientation in degrees: 0\nScript: Latin".data =
      .error .stopIteration :=
  (get_rotate_error_iff_no_rotate_line
    "Orientation in degrees: 0\nScript: Latin".data).1.mpr (by decide)

/-- C6: every rasterizer invocation failure — non-zero exit, missing
binary, or any other exception — is re-raised as a wrapped `RuntimeError`
with a non-empty message chaining the original cause (never silently
swallowed); for a missing binary the message states the command was not
found and instructs to install Poppler, rather than being the raw OS error
text. -/
theorem pdfimages_failures_wrapped (cwd pdf : List Char)
    (listing : List (List Char)) (od : Option (List Char)) (o : RasterOutcome)
    (ho : o ≠ .ok) :
    ∃ e, (pdfimages ⟨cwd, o, listing⟩ pdf od).result = .error e ∧
      e.cause = some o ∧
      e.message.data ≠ [] ∧
      (∀ oserror : String, o = .binaryMissing oserror →
        e.message = "pdfimages command not found. Make sure Poppler is installed: "
          ++ oserror ∧
        pyContains "installed".data e.message.data = true ∧
        e.message ≠ oserror) := by
  cases o with
  | ok => exact absurd rfl ho
  | nonZeroExit rc stderr =>
    refine ⟨_, rfl, rfl, ?_, ?_⟩
    · simp only [pdfimages]
      simp [String.data_append]
    · intro oserror h
      cases h
  | binaryMissing oserror =>
    refine ⟨_, rfl, rfl, ?_, ?_⟩
    · simp only [pdfimages]
      simp [String.data_append]
    · intro os h
      cases h
      refine ⟨rfl, ?_, ?_⟩
      · apply (pyContains_iff _ _).mpr
        refine ⟨"pdfimages command not found. Make sure Poppler is ".data,
          (": " ++ oserror).data, ?_⟩
        simp only [pdfimages]
        have hsplit :
            ("pdfimages command not found. Make sure Poppler is installed: " : String)
              = "pdfimages command not found. Make sure Poppler is " ++ "installed"
                ++ ": " := by decide
        rw [hsplit]
        simp [String.data_append]
      · intro heq
        have hdata := congrArg String.data heq
        simp only [pdfimages] at hdata
        rw [String.data_append] at hdata
        have hlen := congrArg List.length hdata
        rw [List.length_append] at hlen
        have : ("pdfimages command not found. Make sure Poppler is installed: " : String).data.length = 61 := by decide
        omega
  | otherExc excText =>
    refine ⟨_, rfl, rfl, ?_, ?_⟩
    · simp only [pdfimages]
      simp [String.data_append]
    · intro oserror h
      cases h

/-- C6 witness: concrete missing-binary instance. -/
theorem pdfimages_failures_wrapped_witness :
    ∃ e, (pdfimages ⟨"/w".data,
        .binaryMissing "[Errno 2] No such file or directory: 'pdfimages'",
        []⟩ "/a/b.pdf".data none).result = .error e ∧
      e.cause = some (.binaryMissing
        "[Errno 2] No such file or directory: 'pdfimages'") ∧
      e.message.data ≠ [] ∧
      (∀ oserror : String,
        (.binaryMissing "[Errno 2] No such file or directory: 'pdfimages'" :
            RasterOutcome) = .binaryMissing oserror →
        e.message = "pdfimages command not found. Make sure Poppler is installed: "
          ++ oserror ∧
        pyContains "installed".data e.message.data = true ∧
        e.message ≠ oserror) :=
  pdfimages_failures_wrapped "/w".data "/a/b.pdf".data [] none
    (.binaryMissing "[Errno 2] No such file or directory: 'pdfimages'")
    (by simp)

/-- C4 counterexample.  The claim says `get_rotate` returns the substring
of the found line after its first `": "` separator.  On the line
`"Rotate: 90: x"` the substring after the first `": "` is `"90: x"`, but
`line.split(": ")[1]` — what the code computes — is `"90"`. -/
theorem get_rotate_not_substring_after_first_sep :
    (pySplit newlineSep "Rotate: 90: x".data).find?
        (fun l => pyContains rotateMarker l) = some "Rotate: 90: x".data ∧
      afterFirst colonSpace "Rotate: 90: x".data = some "90: x".data ∧
      get_rotate "Rotate: 90: x".data = .ok "90".data ∧
      ("90".data : List Char) ≠ "90: x".data :=
  ⟨by decide, by decide, by rfl, by decide⟩

/-- C4 (amended): for every tool stdout, `get_rotate` finds the first line
containing `"Rotate: "` and returns the segment of that line strictly
between its first and second `": "` separators (up to the end of the line
when there is no second separator) — element 1 of the line split on
`": "`; in particular on output containing the line `"Rotate: 90"` it
returns `"90"`. -/
theorem get_rotate_between_first_and_second_sep (stdout l : List Char)
    (hf : (pySplit newlineSep stdout).find?
      (fun l => pyContains rotateMarker l) = some l) :
    get_rotate stdout =
        .ok (takeUntilSep colonSpace ((afterFirst colonSpace l).getD [])) ∧
      get_rotate "Orientation and script detection: \nRotate: 90\nfoo".data =
        .ok "90".data := by
  refine ⟨?_, by rfl⟩
  have hcon : pyContains rotateMarker l = true := List.find?_some hf
  have hcolon : pyContains colonSpace l = true :=
    pyContains_of_factor rotateMarker colonSpace l (by decide) hcon
  have hsome : (afterFirst colonSpace l).isSome = true :=
    (afterFirst_isSome_iff colonSpace l (by decide)).mpr hcolon
  obtain ⟨r, hr⟩ := Option.isSome_iff_exists.mp hsome
  have h1 : (pySplit colonSpace l)[1]? = some (takeUntilSep colonSpace r) := by
    rw [pySplit_getElem_one, hr]
    rfl
  unfold get_rotate
  simp only [hf, h1, hr]
  rfl

/-- C4 witness: concrete instance of the amended theorem. -/
theorem get_rotate_between_first_and_second_sep_witness :
    get_rotate "tesseract found\nRotate: 180\nScript: Latin".data =
        .ok (takeUntilSep colonSpace
          ((afterFirst colonSpace "Rotate: 180".data).getD [])) ∧
      get_rotate "Orientation and script detection: \nRotate: 90\nfoo".data =
        .ok "90".data :=
  get_rotate_between_first_and_second_sep
    "tesseract found\nRotate: 180\nScript: Latin".data "Rotate: 180".data
    (by decide)

/-- Declarative reading of the regex tail `.*\.png`: some decomposition
`mid ++ ".png" ++ rest` with no newline consumed by `.*`. -/
theorem containsDotPngSegment_iff (l : List Char) :
    containsDotPngSegment l = true ↔
      ∃ mid rest, l = mid ++ dotPng ++ rest ∧ '\n' ∉ mid := by
  induction l with
  | nil =>
    rw [containsDotPngSegment]
    constructor
    · intro h
      simp at h
    · rintro ⟨mid, rest, heq, -⟩
      have hlen := congrArg List.length heq
      simp [dotPng] at hlen
      exact absurd hlen (by omega)
  | cons c rest' ih =>
    rw [containsDotPngSegment]
    by_cases hpre : dotPng.isPrefixOf (c :: rest') = true
    · rw [if_pos hpre]
      simp only [true_iff]
      rcases List.isPrefixOf_iff_prefix.mp hpre with ⟨t, ht⟩
      exact ⟨[], t, by simp [← ht], by simp⟩
    · rw [if_neg hpre]
      by_cases hnl : c = '\n'
      · rw [if_pos hnl]
        constructor
        · intro h
          simp at h
        · rintro ⟨mid, r2, heq, hmid⟩
          cases mid with
          | nil =>
            exact absurd (List.isPrefixOf_iff_prefix.mpr
              ⟨r2, by simpa using heq.symm⟩) hpre
          | cons m0 ms =>
            simp only [List.cons_append, List.cons.injEq] at heq
            have hm0 : m0 = '\n' := by rw [← heq.1, hnl]
            exact (hmid (by simp [hm0])).elim
      · rw [if_neg hnl]
        rw [ih]
        constructor
        · rintro ⟨mid, r2, heq, hmid⟩
          refine ⟨c :: mid, r2, by simp [heq], ?_⟩
          intro hmem
          rcases List.mem_cons.mp hmem with h | h
          · exact hnl h.symm
          · exact hmid h
        · rintro ⟨mid, r2, heq, hmid⟩
          cases mid with
          | nil =>
            exact absurd (List.isPrefixOf_iff_prefix.mpr
              ⟨r2, by simpa using heq.symm⟩) hpre
          | cons m0 ms =>
            simp only [List.cons_append, List.cons.injEq] at heq
            refine ⟨ms, r2, heq.2, ?_⟩
            intro hmem
            exact hmid (by simp [hmem])

/-- Declarative reading of the whole `re.match` test in
`find_matching_files_in_dir`. -/
theorem rasterMatch_iff (stem name : List Char) :
    rasterMatch stem name = true ↔
      ∃ d1 d2 d3 mid rest,
        name = stem ++ '-' :: d1 :: d2 :: d3 :: (mid ++ dotPng ++ rest) ∧
        d1.isDigit = true ∧ d2.isDigit = true ∧ d3.isDigit = true ∧
        '\n' ∉ mid := by
  rw [rasterMatch, Bool.and_eq_true]
  constructor
  · rintro ⟨hpre, hmatch⟩
    rcases List.isPrefixOf_iff_prefix.mp hpre with ⟨t, ht⟩
    have hdrop : name.drop (stem.length + 1) = t := by
      rw [← ht]
      have : (stem ++ ['-']).length = stem.length + 1 := by simp
      rw [← this, List.drop_left]
    rw [hdrop] at hmatch
    match t, hmatch with
    | d1 :: d2 :: d3 :: tail, hmatch =>
      simp only [Bool.and_eq_true] at hmatch
      obtain ⟨⟨⟨h1, h2⟩, h3⟩, h4⟩ := hmatch
      rcases (containsDotPngSegment_iff tail).mp h4 with ⟨mid, rest, rfl, hmid⟩
      exact ⟨d1, d2, d3, mid, rest, by simp [← ht], h1, h2, h3, hmid⟩
  · rintro ⟨d1, d2, d3, mid, rest, rfl, h1, h2, h3, hmid⟩
    have hassoc : stem ++ '-' :: d1 :: d2 :: d3 :: (mid ++ dotPng ++ rest) =
        (stem ++ ['-']) ++ (d1 :: d2 :: d3 :: (mid ++ dotPng ++ rest)) := by
      simp
    constructor
    · exact List.isPrefixOf_iff_prefix.mpr
        ⟨d1 :: d2 :: d3 :: (mid ++ dotPng ++ rest), by rw [hassoc]⟩
    · have hdrop : (stem ++ '-' :: d1 :: d2 :: d3 :: (mid ++ dotPng ++ rest)).drop
          (stem.length + 1) = d1 :: d2 :: d3 :: (mid ++ dotPng ++ rest) := by
        rw [hassoc]
        have : (stem ++ ['-']).length = stem.length + 1 := by simp
        rw [← this, List.drop_left]
      rw [hdrop]
      simp only [Bool.and_eq_true]
      exact ⟨⟨⟨h1, h2⟩, h3⟩, (containsDotPngSegment_iff _).mpr ⟨mid, rest, rfl, hmid⟩⟩

/-- C8 counterexample.  The claim says only names ending in `".png"` are
selected.  `re.match` does not anchor the end of the pattern, so
`"a-000.png.bak"` — which does not end in `".png"` — is selected for stem
`"a"`. -/
theorem find_matching_accepts_trailing_after_png :
    find_matching_files_in_dir "a".data ["a-000.png.bak".data] =
        ["a-000.png.bak".data] ∧
      dotPng.isSuffixOf "a-000.png.bak".data = false := by
  constructor
  · rfl
  · decide

/-- C8 (amended): `find_matching_files_in_dir` selects exactly the listing
entries whose name starts with the stem (taken literally), a hyphen and
exactly three digits, followed by a tail in which `".png"` occurs with no
newline before it (`re.match` anchors the pattern at the start only, so
arbitrary characters may follow the `".png"`); the digit index may also be
followed by further digits, consumed by `.*`. -/
theorem find_matching_mem_iff (stem name : List Char)
    (listing : List (List Char)) :
    name ∈ find_matching_files_in_dir stem listing ↔
      name ∈ listing ∧
        ∃ d1 d2 d3 mid rest,
          name = stem ++ '-' :: d1 :: d2 :: d3 :: (mid ++ dotPng ++ rest) ∧
          d1.isDigit = true ∧ d2.isDigit = true ∧ d3.isDigit = true ∧
          '\n' ∉ mid := by
  unfold find_matching_files_in_dir
  rw [List.mem_filter]
  rw [rasterMatch_iff]

/-- C9: `mogrify` never inspects the rotation tool's exit status — it
returns normally for every exit code, including non-zero — and therefore
`preprocess_img` returns normally for every rotation-tool exit code
whenever orientation detection itself succeeds. -/
theorem mogrify_ignores_exit_status :
    (∀ (rc : Int) (img rot : String), mogrify rc img rot = .ok rc) ∧
      (∀ (stdout : List Char) (rc : Int) (fp : String)
          (tp : Option (List String)) (r : List Char),
        get_rotate stdout = .ok r →
        preprocess_img stdout rc fp tp = .ok ()) := by
  constructor
  · intro rc img rot
    simp [mogrify, subprocessRun]
  · intro stdout rc fp tp r h
    unfold preprocess_img
    rw [h]
    simp [mogrify, subprocessRun]

/-- C9 witness: a non-zero (here negative, signal-style) rotation-tool exit
code still yields a normal return. -/
theorem mogrify_ignores_exit_status_witness :
    preprocess_img "Rotate: 90".data (-7) "img.png" none = .ok () :=
  mogrify_ignores_exit_status.2 "Rotate: 90".data (-7) "img.png" none
    "90".data (by rfl)

/-- C10: when the filename contains no `".pdf"` substring (the match is
case-sensitive, e.g. `Doc.PDF`), the stem is the entire filename, so the
rasterizer command uses the full filename — extension included — as the
output prefix, and on success the output files are collected with that
full filename as the matching stem. -/
theorem pdfimages_full_filename_stem (cwd pdf : List Char)
    (listing : List (List Char)) (o : RasterOutcome) (od : Option (List Char))
    (hno : pyContains pdfExt (pathSplit pdf).2 = false) :
    (pdfimages ⟨cwd, o, listing⟩ pdf od).cmd =
        ["pdfimages", "-png", String.mk pdf, String.mk (pathSplit pdf).2] ∧
      (o = .ok → (pdfimages ⟨cwd, o, listing⟩ pdf od).result =
        .ok (find_matching_files_in_dir (pathSplit pdf).2 listing)) := by
  have hstem : filename_sans_ext (pathSplit pdf).2 = (pathSplit pdf).2 := by
    unfold filename_sans_ext
    rw [pySplit_headD]
    exact takeUntilSep_of_not_contains pdfExt _ hno
  constructor
  · cases o <;> simp [pdfimages, hstem]
  · rintro rfl
    simp [pdfimages, hstem]

/-- C10 witness: `Doc.PDF` (uppercase extension) is used whole as the
prefix and the collection stem. -/
theorem pdfimages_full_filename_stem_witness :
    (pdfimages ⟨"/w".data, .ok, ["Doc.PDF-000.png".data]⟩ "/docs/Doc.PDF".data
        none).cmd =
        ["pdfimages", "-png", String.mk "/docs/Doc.PDF".data,
          String.mk (pathSplit "/docs/Doc.PDF".data).2] ∧
      ((.ok : RasterOutcome) = .ok →
        (pdfimages ⟨"/w".data, .ok, ["Doc.PDF-000.png".data]⟩
            "/docs/Doc.PDF".data none).result =
          .ok (find_matching_files_in_dir (pathSplit "/docs/Doc.PDF".data).2
            ["Doc.PDF-000.png".data])) :=
  pdfimages_full_filename_stem "/w".data "/docs/Doc.PDF".data
    ["Doc.PDF-000.png".data] .ok none (by decide)

end TableOcr
